import Mathlib

/-!
Verification of the continusec go-client map verification engine
(`client/vendor/src/github.com/continusec/go-client/continusec/map.go`).

The network and the Merkle-log verification primitives are external
collaborators of that file; they are modelled as an explicit environment of
functions.  Each orchestration function is embedded together with a trace of
the collaborator calls it performs, so that claims about which checks run
(and in which order) become statements about the trace.

Byte strings are modelled as `List Nat`; Go `int64` / `int` as `Int`.
-/

namespace Continusec

/-- A log tree head: size and root hash (`LogTreeHead`). -/
structure LogTreeHead where
  TreeSize : Int
  RootHash : List Nat
deriving DecidableEq

/-- A map tree head: map root hash plus the mutation-log head that produced
it (`MapTreeHead`). -/
structure MapTreeHead where
  RootHash : List Nat
  MutationLogTreeHead : LogTreeHead
deriving DecidableEq

/-- Modelled from the spec: `MapTreeHead.TreeSize()` lives outside src/ —
"the map's size is defined as its mutation log's size" (§3). -/
def MapTreeHead.TreeSize (h : MapTreeHead) : Int :=
  h.MutationLogTreeHead.TreeSize

/-- A map tree head together with a tree-head-log head it is proven included
in (`MapTreeState`). -/
structure MapTreeState where
  MapTreeHead : MapTreeHead
  TreeHeadLogTreeHead : LogTreeHead
deriving DecidableEq

/-- Modelled from the spec: `MapTreeState.TreeSize()` lives outside src/ —
it is the size of the underlying map head (§3). -/
def MapTreeState.TreeSize (s : MapTreeState) : Int :=
  s.MapTreeHead.TreeSize

/-- Modelled from the spec: the sentinel tree-size value `Head` (0) requests
"latest known size" (§3); its definition lives outside src/. -/
def Head : Int := 0

/-- One collaborator call made by the map state reconciler. -/
inductive MapEvent where
  | fetchTreeHead (treeSize : Int)
  | verifyConsistency (old new : LogTreeHead)
  | verifyInclusion (head : LogTreeHead) (mapHead : MapTreeHead)
  | verifiedLatestTreeHead (prev : Option LogTreeHead)
deriving DecidableEq

/-- The external collaborators used by `VerifiedMapState`:
the map head fetch (`TreeHead`, including transport and JSON decoding),
`MutationLog().VerifyConsistency`, `TreeHeadLog().VerifyInclusion` and
`TreeHeadLog().VerifiedLatestTreeHead`. -/
structure MapEnv where
  treeHead : Int → Except String MapTreeHead
  mutVerifyConsistency : LogTreeHead → LogTreeHead → Except String Unit
  thlVerifyInclusion : LogTreeHead → MapTreeHead → Except String Unit
  thlVerifiedLatestTreeHead : Option LogTreeHead → Except String LogTreeHead

/-- map.go:336-348: the non-shortcut path — fetch a verified latest
tree-head-log head (seeded with `prevThlth`) and require inclusion of
`mapHead` in it. -/
def verifiedMapStateFallback (env : MapEnv) (prevThlth : Option LogTreeHead)
    (mapHead : MapTreeHead) : Except String MapTreeState × List MapEvent :=
  match env.thlVerifiedLatestTreeHead prevThlth with
  | .error e => (.error e, [.verifiedLatestTreeHead prevThlth])
  | .ok thlth =>
    match env.thlVerifyInclusion thlth mapHead with
    | .error e =>
      (.error e,
       [.verifiedLatestTreeHead prevThlth, .verifyInclusion thlth mapHead])
    | .ok _ =>
      (.ok ⟨mapHead, thlth⟩,
       [.verifiedLatestTreeHead prevThlth, .verifyInclusion thlth mapHead])

/-- map.go:322-348: anchor `mapHead` in the tree-head log.  If the previous
tree-head-log head is already large enough, try inclusion against it first
(shortcut); a shortcut failure is not surfaced — the code falls back to
`verifiedMapStateFallback`. -/
def verifiedMapStateAnchor (env : MapEnv) (prevThlth : Option LogTreeHead)
    (mapHead : MapTreeHead) : Except String MapTreeState × List MapEvent :=
  match prevThlth with
  | some thl =>
    if thl.TreeSize ≥ mapHead.TreeSize then
      match env.thlVerifyInclusion thl mapHead with
      | .ok _ => (.ok ⟨mapHead, thl⟩, [.verifyInclusion thl mapHead])
      | .error _ =>
        let r := verifiedMapStateFallback env (some thl) mapHead
        (r.1, .verifyInclusion thl mapHead :: r.2)
    else verifiedMapStateFallback env (some thl) mapHead
  | none => verifiedMapStateFallback env none mapHead

/-- map.go:300-348: the part of `VerifiedMapState` after the fast path —
fetch the map head, check mutation-log consistency against `prev` when
present, then anchor in the tree-head log. -/
def verifiedMapStateFetch (env : MapEnv) (prev : Option MapTreeState)
    (treeSize : Int) : Except String MapTreeState × List MapEvent :=
  match env.treeHead treeSize with
  | .error e => (.error e, [.fetchTreeHead treeSize])
  | .ok mapHead =>
    match prev with
    | some p =>
      match env.mutVerifyConsistency p.MapTreeHead.MutationLogTreeHead
          mapHead.MutationLogTreeHead with
      | .error e =>
        (.error e,
         [.fetchTreeHead treeSize,
          .verifyConsistency p.MapTreeHead.MutationLogTreeHead
            mapHead.MutationLogTreeHead])
      | .ok _ =>
        let r := verifiedMapStateAnchor env (some p.TreeHeadLogTreeHead) mapHead
        (r.1,
         .fetchTreeHead treeSize ::
           .verifyConsistency p.MapTreeHead.MutationLogTreeHead
             mapHead.MutationLogTreeHead :: r.2)
    | none =>
      let r := verifiedMapStateAnchor env none mapHead
      (r.1, .fetchTreeHead treeSize :: r.2)

/-- map.go:295-355: `VerifiedMapState`.  Fast path (map.go:296-298): a
specific requested size already held by `prev` is returned unchanged with no
collaborator call. -/
def VerifiedMapState (env : MapEnv) (prev : Option MapTreeState)
    (treeSize : Int) : Except String MapTreeState × List MapEvent :=
  match prev with
  | some p =>
    if treeSize ≠ 0 ∧ p.TreeSize = treeSize then (.ok p, [])
    else verifiedMapStateFetch env (some p) treeSize
  | none => verifiedMapStateFetch env none treeSize

/-- map.go:270-286: `VerifiedLatestMapState` — request latest, then apply the
monotonicity guard: a verified head no larger than `prev` is discarded in
favour of `prev`. -/
def VerifiedLatestMapState (env : MapEnv) (prev : Option MapTreeState) :
    Except String MapTreeState × List MapEvent :=
  match VerifiedMapState env prev Head with
  | (.error e, tr) => (.error e, tr)
  | (.ok head, tr) =>
    match prev with
    | some p => if head.TreeSize ≤ p.TreeSize then (.ok p, tr) else (.ok head, tr)
    | none => (.ok head, tr)

/-- Outcome of a Go computation: a value, a returned error, or a runtime
panic. -/
inductive GoResult (α : Type) where
  | ok (a : α)
  | err (e : String)
  | panicked (msg : String)
deriving DecidableEq

/-- Whitespace as trimmed by Go `strings.TrimSpace` (the ASCII cases). -/
def isSpaceChar (c : Char) : Bool :=
  c = ' ' || c = '\t' || c = '\n' || c = '\r'

/-- Go `strings.TrimSpace` over a character list. -/
def trimSpace (s : List Char) : List Char :=
  ((s.dropWhile isSpaceChar).reverse.dropWhile isSpaceChar).reverse

/-- Decimal digit value of a character, if any. -/
def digitVal (c : Char) : Option Nat :=
  if '0' ≤ c ∧ c ≤ '9' then some (c.toNat - '0'.toNat) else none

/-- Accumulate decimal digits; `none` on the first non-digit. -/
def parseDigitsAux : List Char → Nat → Option Nat
  | [], acc => some acc
  | c :: cs, acc =>
    match digitVal c with
    | some d => parseDigitsAux cs (acc * 10 + d)
    | none => none

/-- Go `strconv.Atoi`: an optional sign followed by one or more decimal
digits; anything else is an error.  (Machine-int overflow is not modelled;
no claim depends on it.) -/
def go_Atoi (s : List Char) : Except String Int :=
  match s with
  | '+' :: cs =>
    match (if cs.isEmpty then none else parseDigitsAux cs 0) with
    | some n => .ok (n : Int)
    | none => .error "strconv.Atoi: invalid syntax"
  | '-' :: cs =>
    match (if cs.isEmpty then none else parseDigitsAux cs 0) with
    | some n => .ok (-(n : Int))
    | none => .error "strconv.Atoi: invalid syntax"
  | cs =>
    match (if cs.isEmpty then none else parseDigitsAux cs 0) with
    | some n => .ok (n : Int)
    | none => .error "strconv.Atoi: invalid syntax"

/-- Hex digit value of a character, if any. -/
def hexVal (c : Char) : Option Nat :=
  if '0' ≤ c ∧ c ≤ '9' then some (c.toNat - '0'.toNat)
  else if 'a' ≤ c ∧ c ≤ 'f' then some (c.toNat - 'a'.toNat + 10)
  else if 'A' ≤ c ∧ c ≤ 'F' then some (c.toNat - 'A'.toNat + 10)
  else none

/-- Decode pairs of hex digits; `none` on odd length or a non-hex digit. -/
def hexPairs : List Char → Option (List Nat)
  | [] => some []
  | [_] => none
  | c1 :: c2 :: cs =>
    match hexVal c1, hexVal c2, hexPairs cs with
    | some h, some l, some rest => some ((h * 16 + l) :: rest)
    | _, _, _ => none

/-- Go `hex.DecodeString`. -/
def hex_DecodeString (s : List Char) : Except String (List Nat) :=
  match hexPairs s with
  | some bs => .ok bs
  | none => .error "encoding hex: invalid byte"

/-- Go `strings.Split` with a one-character separator. -/
def splitOnChar (sep : Char) : List Char → List (List Char)
  | [] => [[]]
  | c :: cs =>
    if c = sep then [] :: splitOnChar sep cs
    else
      match splitOnChar sep cs with
      | [] => [[c]]
      | x :: xs => (c :: x) :: xs

/-- Go `strings.SplitN(s, sep, 2)` with a one-character separator: at most
two pieces, split at the first occurrence of the separator. -/
def splitN2 (sep : Char) : List Char → List (List Char)
  | [] => [[]]
  | c :: cs =>
    if c = sep then [[], cs]
    else
      match splitN2 sep cs with
      | [x] => [c :: x]
      | [x, y] => [c :: x, y]
      | r => r

/-- map.go:85-98: process one comma-separated token of the
`X-Verified-Proof` headers against the current 256-entry audit path.
A token without the `/` separator (`len(bits) != 2`) is skipped; a
non-numeric index or invalid hex is an error; an index `< 256` is written
into the path — Go's `prv[idx] = bs` panics when `idx` is negative, since
only the upper bound is checked. -/
def processToken (prv : List (List Nat)) (commad : List Char) :
    GoResult (List (List Nat)) :=
  match splitN2 '/' commad with
  | [b0, b1] =>
    match go_Atoi (trimSpace b0) with
    | .error e => .err e
    | .ok idx =>
      match hex_DecodeString (trimSpace b1) with
      | .error e => .err e
      | .ok bs =>
        if idx < 256 then
          if 0 ≤ idx then .ok (prv.set idx.toNat bs)
          else .panicked "runtime error: index out of range"
        else .ok prv
  | _ => .ok prv

/-- Fold `processToken` over the token list, short-circuiting on error or
panic. -/
def processTokens :
    List (List Nat) → List (List Char) → GoResult (List (List Nat))
  | prv, [] => .ok prv
  | prv, t :: ts =>
    match processToken prv t with
    | .ok prv2 => processTokens prv2 ts
    | .err e => .err e
    | .panicked m => .panicked m

/-- map.go:79-103: `parseHeadersForProof`.  `actualHeaders` is the list of
`X-Verified-Proof` header values (`none` when the header is absent); each
value is split on commas and the tokens are processed in order. -/
def parseHeadersForProof (actualHeaders : Option (List (List Char))) :
    GoResult (List (List Nat)) :=
  let prv := List.replicate 256 ([] : List Nat)
  match actualHeaders with
  | none => .ok prv
  | some hs => processTokens prv (hs.map (splitOnChar ',')).flatten

/-- The parts of an HTTP response that `Get` inspects: the body, the
`X-Verified-Proof` header values (`none` when absent) and the
`X-Verified-TreeSize` header value (empty when absent, matching Go's
`headers.Get`). -/
structure HttpResponse where
  body : List Nat
  proofHeaders : Option (List (List Char))
  verifiedTreeSize : List Char
deriving DecidableEq

/-- The external collaborators used by `Get`: the transport
(`Client.MakeRequest`) and the pluggable entry decoder
(`factory.CreateFromBytes`); the decoded entry is modelled as bytes. -/
structure GetEnv where
  makeRequest : Int → Except String HttpResponse
  createFromBytes : List Nat → Except String (List Nat)

/-- An unverified server claim about one key (`MapInclusionProof`). -/
structure MapInclusionProof where
  Value : List Nat
  TreeSize : Int
  AuditPath : List (List Nat)
  Key : List Nat
deriving DecidableEq

/-- map.go:109-136: `Get` — make the request, parse the audit-path headers,
decode the body, parse the `X-Verified-TreeSize` header, and assemble the
proof. -/
def Get (env : GetEnv) (key : List Nat) (treeSize : Int) :
    GoResult MapInclusionProof :=
  match env.makeRequest treeSize with
  | .error e => .err e
  | .ok resp =>
    match parseHeadersForProof resp.proofHeaders with
    | .panicked m => .panicked m
    | .err e => .err e
    | .ok prv =>
      match env.createFromBytes resp.body with
      | .error e => .err e
      | .ok rv =>
        match go_Atoi resp.verifiedTreeSize with
        | .error e => .err e
        | .ok vts => .ok ⟨rv, vts, prv, key⟩

/-- The hash-tree primitives of the sparse-Merkle-tree verifier, an external
collaborator (spec §1, §6): leaf hashing, node pair hashing, and the key
bit-order convention (left open by the spec, §9). -/
structure HashParams where
  leafHash : List Nat → List Nat
  nodeHash : List Nat → List Nat → List Nat
  keyBit : List Nat → Nat → Bool

/-- Modelled from the spec: root recomputation of §4.1, whose implementation
lives outside src/ — hash the leaf value, then perform 256 combination
steps, pairing with the audit-path entry at each level in the order chosen
by the key bit. -/
def computeMapRoot (hp : HashParams) (proof : MapInclusionProof) : List Nat :=
  (List.range 256).foldl
    (fun acc i =>
      let sib := proof.AuditPath.getD i []
      if hp.keyBit proof.Key i then hp.nodeHash sib acc
      else hp.nodeHash acc sib)
    (hp.leafHash proof.Value)

/-- Modelled from the spec: `MapInclusionProof.Verify` (§4.1), whose
implementation lives outside src/ — reject a proof whose declared `TreeSize`
does not match the trusted head's size, reject an audit path that is not
exactly 256 entries, recompute the root and require equality with the
trusted root hash. -/
def MapInclusionProof.Verify (hp : HashParams) (self : MapInclusionProof)
    (head : MapTreeHead) : Except String Unit :=
  if self.TreeSize ≠ head.MutationLogTreeHead.TreeSize then
    .error "verification failed"
  else if self.AuditPath.length ≠ 256 then .error "verification failed"
  else if computeMapRoot hp self = head.RootHash then .ok ()
  else .error "verification failed"

/-- An invocation of the map-inclusion-proof verifier by `VerifiedGet`. -/
inductive GetEvent where
  | verifyProof (proof : MapInclusionProof) (head : MapTreeHead)
deriving DecidableEq

/-- map.go:141-151: `VerifiedGet` — `Get` at the trusted state's map size,
then verify the proof against the trusted map head; the value is returned
only on success. -/
def VerifiedGet (env : GetEnv) (hp : HashParams) (key : List Nat)
    (mapHead : MapTreeState) : GoResult (List Nat) × List GetEvent :=
  match Get env key mapHead.TreeSize with
  | .err e => (.err e, [])
  | .panicked m => (.panicked m, [])
  | .ok proof =>
    match proof.Verify hp mapHead.MapTreeHead with
    | .error e => (.err e, [.verifyProof proof mapHead.MapTreeHead])
    | .ok _ => (.ok proof.Value, [.verifyProof proof mapHead.MapTreeHead])

/-- map.go:244-266: the `BlockUntilSize` polling loop.  `polls i` is the
result of the `i`-th `TreeHead(Head)` fetch; `lastHead` and `timeToSleep`
are the loop state (initially `-1` and one `time.Second` unit); the sleep
durations are recorded.  The Go loop is unbounded, so the model takes a fuel
bound on the number of polls; `none` means the loop was still running. -/
def blockUntilSizeLoop (polls : Nat → Except String MapTreeHead)
    (treeSize : Int) :
    Nat → Int → Int → Nat → List Int →
    Option (Except String MapTreeHead × List Int)
  | 0, _, _, _, _ => none
  | fuel + 1, lastHead, timeToSleep, i, sleeps =>
    match polls i with
    | .error e => some (.error e, sleeps.reverse)
    | .ok lth =>
      if lth.TreeSize ≥ treeSize then some (.ok lth, sleeps.reverse)
      else
        if lth.TreeSize > lastHead then
          blockUntilSizeLoop polls treeSize fuel lth.TreeSize 1 (i + 1)
            (1 :: sleeps)
        else
          blockUntilSizeLoop polls treeSize fuel lastHead (timeToSleep * 2)
            (i + 1) (timeToSleep * 2 :: sleeps)

/-- map.go:244-266: `BlockUntilSize` — poll until the fetched head reaches
`treeSize`, starting from `lastHead = -1` and a one-unit sleep. -/
def BlockUntilSize (polls : Nat → Except String MapTreeHead) (treeSize : Int)
    (fuel : Nat) : Option (Except String MapTreeHead × List Int) :=
  blockUntilSizeLoop polls treeSize fuel (-1) 1 0 []

/-- A successful `processToken` step preserves the audit-path length. -/
theorem processToken_length (prv : List (List Nat)) (t : List Char)
    (prv2 : List (List Nat)) (h : processToken prv t = .ok prv2) :
    prv2.length = prv.length := by
  unfold processToken at h
  split at h
  next b0 b1 =>
    split at h
    · cases h
    · split at h
      · cases h
      · split at h
        · split at h
          · cases h
            simp
          · cases h
        · cases h
          rfl
  next => cases h; rfl

/-- A successful `processTokens` run preserves the audit-path length. -/
theorem processTokens_length (ts : List (List Char)) :
    ∀ prv prv2, processTokens prv ts = .ok prv2 → prv2.length = prv.length := by
  induction ts with
  | nil =>
    intro prv prv2 h
    cases h
    rfl
  | cons t ts ih =>
    intro prv prv2 h
    unfold processTokens at h
    cases hpt : processToken prv t with
    | ok prvm =>
      simp only [hpt] at h
      exact (ih prvm prv2 h).trans (processToken_length prv t prvm hpt)
    | err e => simp only [hpt] at h; cases h
    | panicked m => simp only [hpt] at h; cases h

/-- A successfully parsed audit path has exactly 256 entries. -/
theorem parseHeadersForProof_length (hs : Option (List (List Char)))
    (prv : List (List Nat)) (h : parseHeadersForProof hs = .ok prv) :
    prv.length = 256 := by
  cases hs with
  | none =>
    have h2 : GoResult.ok (List.replicate 256 ([] : List Nat)) =
        GoResult.ok prv := h
    cases h2
    rw [List.length_replicate]
  | some l =>
    have h2 : processTokens (List.replicate 256 ([] : List Nat))
        ((l.map (splitOnChar ',')).flatten) = .ok prv := h
    have h3 := processTokens_length ((l.map (splitOnChar ',')).flatten)
      (List.replicate 256 []) prv h2
    rw [h3, List.length_replicate]

/-- Claim C4: if the requested size is a specific (non-latest) size and `prev`
already has exactly that size, `VerifiedMapState` returns `prev` unchanged,
with no collaborator call at all (empty trace). -/
theorem verifiedMapState_fastPath (env : MapEnv) (p : MapTreeState)
    (treeSize : Int) (h1 : treeSize ≠ 0) (h2 : p.TreeSize = treeSize) :
    VerifiedMapState env (some p) treeSize = (.ok p, []) := by
  simp [VerifiedMapState, h1, h2]

/-- Claim C4 witness. -/
theorem verifiedMapState_fastPath_witness :
    VerifiedMapState
      ⟨fun _ => .error "", fun _ _ => .error "", fun _ _ => .error "",
       fun _ => .error ""⟩
      (some ⟨⟨[], ⟨3, []⟩⟩, ⟨7, []⟩⟩) 3 =
      (.ok ⟨⟨[], ⟨3, []⟩⟩, ⟨7, []⟩⟩, []) :=
  verifiedMapState_fastPath _ _ 3 (by decide) rfl

/-- Claim C1: with a non-null `prev`, once the map head is fetched, a failure
of the mutation-log consistency check makes `VerifiedMapState` return that
error (no state is produced), and no tree-head-log inclusion check appears in
the trace afterward. -/
theorem verifiedMapState_consistencyFailure_aborts
    (env : MapEnv) (p : MapTreeState) (treeSize : Int) (mapHead : MapTreeHead)
    (e : String)
    (hfast : ¬(treeSize ≠ 0 ∧ p.TreeSize = treeSize))
    (hfetch : env.treeHead treeSize = .ok mapHead)
    (hcons : env.mutVerifyConsistency p.MapTreeHead.MutationLogTreeHead
        mapHead.MutationLogTreeHead = .error e) :
    (VerifiedMapState env (some p) treeSize).1 = .error e ∧
      ∀ thl mh, MapEvent.verifyInclusion thl mh ∉
        (VerifiedMapState env (some p) treeSize).2 := by
  simp [VerifiedMapState, hfast, verifiedMapStateFetch, hfetch, hcons]

/-- Claim C1 witness. -/
theorem verifiedMapState_consistencyFailure_aborts_witness :
    (VerifiedMapState
      ⟨fun _ => .ok ⟨[1], ⟨9, [2]⟩⟩, fun _ _ => .error "inconsistent",
       fun _ _ => .ok (), fun _ => .ok ⟨9, []⟩⟩
      (some ⟨⟨[], ⟨3, []⟩⟩, ⟨7, []⟩⟩) 0).1 = .error "inconsistent" :=
  (verifiedMapState_consistencyFailure_aborts _ _ 0 ⟨[1], ⟨9, [2]⟩⟩
    "inconsistent" (by decide) rfl rfl).1

/-- Claim C2: with a non-null `prev`, a successful fetch and consistency
check, and `prev`'s tree-head-log size at least the fetched head's
mutation-log size: (a) if the shortcut inclusion check against
`prev.TreeHeadLogTreeHead` succeeds, the result reuses that head and no
tree-head-log fetch happens; (b) if the shortcut check fails, the failure is
not surfaced — a verified latest tree-head-log head seeded with `prev`'s
state is fetched; (c) a failure of the fallback inclusion check is fatal. -/
theorem verifiedMapState_shortcut_and_fallback
    (env : MapEnv) (p : MapTreeState) (treeSize : Int) (mapHead : MapTreeHead)
    (hfast : ¬(treeSize ≠ 0 ∧ p.TreeSize = treeSize))
    (hfetch : env.treeHead treeSize = .ok mapHead)
    (hcons : env.mutVerifyConsistency p.MapTreeHead.MutationLogTreeHead
        mapHead.MutationLogTreeHead = .ok ())
    (hsz : p.TreeHeadLogTreeHead.TreeSize ≥ mapHead.TreeSize) :
    (env.thlVerifyInclusion p.TreeHeadLogTreeHead mapHead = .ok () →
        (VerifiedMapState env (some p) treeSize).1 =
            .ok ⟨mapHead, p.TreeHeadLogTreeHead⟩ ∧
          ∀ q, MapEvent.verifiedLatestTreeHead q ∉
            (VerifiedMapState env (some p) treeSize).2) ∧
      (∀ e1, env.thlVerifyInclusion p.TreeHeadLogTreeHead mapHead = .error e1 →
        MapEvent.verifiedLatestTreeHead (some p.TreeHeadLogTreeHead) ∈
          (VerifiedMapState env (some p) treeSize).2) ∧
      (∀ e1 thl2 e2,
        env.thlVerifyInclusion p.TreeHeadLogTreeHead mapHead = .error e1 →
        env.thlVerifiedLatestTreeHead (some p.TreeHeadLogTreeHead) = .ok thl2 →
        env.thlVerifyInclusion thl2 mapHead = .error e2 →
        (VerifiedMapState env (some p) treeSize).1 = .error e2) := by
  refine ⟨fun hincl => ?_, fun e1 hincl => ?_, fun e1 thl2 e2 hincl hlat hincl2 => ?_⟩
  · simp [VerifiedMapState, hfast, verifiedMapStateFetch, hfetch, hcons,
      verifiedMapStateAnchor, hsz, hincl]
  · simp only [VerifiedMapState, hfast, verifiedMapStateFetch, hfetch, hcons,
      verifiedMapStateAnchor, hsz, if_true, if_pos, hincl,
      verifiedMapStateFallback]
    cases hlat : env.thlVerifiedLatestTreeHead (some p.TreeHeadLogTreeHead) with
    | error e => simp [VerifiedMapState, hfast, verifiedMapStateFetch, hfetch,
        hcons, verifiedMapStateAnchor, hsz, hincl, verifiedMapStateFallback,
        hlat]
    | ok thlth =>
      cases hincl2 : env.thlVerifyInclusion thlth mapHead with
      | error e => simp [VerifiedMapState, hfast, verifiedMapStateFetch,
          hfetch, hcons, verifiedMapStateAnchor, hsz, hincl,
          verifiedMapStateFallback, hlat, hincl2]
      | ok u => simp [VerifiedMapState, hfast, verifiedMapStateFetch,
          hfetch, hcons, verifiedMapStateAnchor, hsz, hincl,
          verifiedMapStateFallback, hlat, hincl2]
  · simp [VerifiedMapState, hfast, verifiedMapStateFetch, hfetch, hcons,
      verifiedMapStateAnchor, hsz, hincl, verifiedMapStateFallback, hlat,
      hincl2]

/-- Claim C2 witness: a run where the shortcut inclusion check fails, the
fallback fetch succeeds, and the fallback inclusion check fails fatally. -/
theorem verifiedMapState_shortcut_and_fallback_witness :
    MapEvent.verifiedLatestTreeHead (some ⟨7, []⟩) ∈
        (VerifiedMapState
          ⟨fun _ => .ok ⟨[1], ⟨5, [2]⟩⟩, fun _ _ => .ok (),
           fun _ _ => .error "not included", fun _ => .ok ⟨8, [3]⟩⟩
          (some ⟨⟨[], ⟨3, []⟩⟩, ⟨7, []⟩⟩) 0).2 ∧
      (VerifiedMapState
        ⟨fun _ => .ok ⟨[1], ⟨5, [2]⟩⟩, fun _ _ => .ok (),
         fun _ _ => .error "not included", fun _ => .ok ⟨8, [3]⟩⟩
        (some ⟨⟨[], ⟨3, []⟩⟩, ⟨7, []⟩⟩) 0).1 = .error "not included" := by
  have h := verifiedMapState_shortcut_and_fallback
    ⟨fun _ => .ok ⟨[1], ⟨5, [2]⟩⟩, fun _ _ => .ok (),
     fun _ _ => .error "not included", fun _ => .ok ⟨8, [3]⟩⟩
    ⟨⟨[], ⟨3, []⟩⟩, ⟨7, []⟩⟩ 0 ⟨[1], ⟨5, [2]⟩⟩
    (by decide) rfl rfl (by decide)
  exact ⟨h.2.1 "not included" rfl, h.2.2 "not included" ⟨8, [3]⟩ "not included"
    rfl rfl rfl⟩

/-- Claim C3: in `VerifiedLatestMapState` with non-null `prev`, if the
freshly fetched and fully verified state is no larger than `prev`, the call
returns `prev` unchanged rather than an error. -/
theorem verifiedLatestMapState_laggingReplica_returnsPrev
    (env : MapEnv) (p head : MapTreeState) (tr : List MapEvent)
    (hrun : VerifiedMapState env (some p) Head = (.ok head, tr))
    (hle : head.TreeSize ≤ p.TreeSize) :
    (VerifiedLatestMapState env (some p)).1 = .ok p := by
  simp [VerifiedLatestMapState, hrun, hle]

/-- Claim C3 witness: the server answers "latest" with a map head smaller
than `prev`; the fully verified new state is discarded for `prev`. -/
theorem verifiedLatestMapState_laggingReplica_returnsPrev_witness :
    (VerifiedLatestMapState
      ⟨fun _ => .ok ⟨[1], ⟨3, [2]⟩⟩, fun _ _ => .ok (), fun _ _ => .ok (),
       fun _ => .ok ⟨9, [3]⟩⟩
      (some ⟨⟨[], ⟨5, []⟩⟩, ⟨10, []⟩⟩)).1 =
      .ok ⟨⟨[], ⟨5, []⟩⟩, ⟨10, []⟩⟩ :=
  verifiedLatestMapState_laggingReplica_returnsPrev _ _
    ⟨⟨[1], ⟨3, [2]⟩⟩, ⟨10, []⟩⟩ _ rfl (by decide)

/-- Claim C5: with `prev = null`, `VerifiedMapState` never performs the
mutation-log consistency check, and every successful run has fetched a
verified latest tree-head-log head (unseeded) and performed the tree-head-log
inclusion check of the returned map head against it. -/
theorem verifiedMapState_noPrev_checks (env : MapEnv) (treeSize : Int) :
    (∀ a b, MapEvent.verifyConsistency a b ∉
        (VerifiedMapState env none treeSize).2) ∧
      (∀ s, (VerifiedMapState env none treeSize).1 = .ok s →
        env.thlVerifiedLatestTreeHead none = .ok s.TreeHeadLogTreeHead ∧
          MapEvent.verifiedLatestTreeHead none ∈
            (VerifiedMapState env none treeSize).2 ∧
          MapEvent.verifyInclusion s.TreeHeadLogTreeHead s.MapTreeHead ∈
            (VerifiedMapState env none treeSize).2) := by
  simp only [VerifiedMapState, verifiedMapStateFetch, verifiedMapStateAnchor,
    verifiedMapStateFallback]
  cases hft : env.treeHead treeSize with
  | error e => simp
  | ok mapHead =>
    cases hlat : env.thlVerifiedLatestTreeHead none with
    | error e => simp
    | ok thlth =>
      cases hincl : env.thlVerifyInclusion thlth mapHead with
      | error e => simp [hincl]
      | ok u =>
        simp only [hincl]
        refine ⟨by simp, fun s hs => ?_⟩
        simp only at hs
        cases hs
        simp [hlat]

/-- Claim C5 witness: an unseeded successful run where both facts of the
successful-run conjunct are extracted at a concrete environment. -/
theorem verifiedMapState_noPrev_checks_witness :
    MapEvent.verifiedLatestTreeHead none ∈
      (VerifiedMapState
        ⟨fun _ => .ok ⟨[1], ⟨5, [2]⟩⟩, fun _ _ => .error "unused",
         fun _ _ => .ok (), fun _ => .ok ⟨8, [3]⟩⟩ none 5).2 := by
  have h := verifiedMapState_noPrev_checks
    ⟨fun _ => .ok ⟨[1], ⟨5, [2]⟩⟩, fun _ _ => .error "unused",
     fun _ _ => .ok (), fun _ => .ok ⟨8, [3]⟩⟩ 5
  exact (h.2 ⟨⟨[1], ⟨5, [2]⟩⟩, ⟨8, [3]⟩⟩ rfl).2.1

/-- Claim C6: on the verified read path, a proof whose declared `TreeSize`
differs from the trusted state's map size is rejected — `VerifiedGet` fails
rather than returning a decoded value. -/
theorem verifiedGet_rejects_treeSize_mismatch
    (env : GetEnv) (hp : HashParams) (key : List Nat) (s : MapTreeState)
    (proof : MapInclusionProof)
    (hget : Get env key s.TreeSize = .ok proof)
    (hsz : proof.TreeSize ≠ s.MapTreeHead.MutationLogTreeHead.TreeSize) :
    (VerifiedGet env hp key s).1 = .err "verification failed" := by
  simp [VerifiedGet, hget, MapInclusionProof.Verify, hsz]

/-- Claim C6 witness: the server declares tree size 7 while the trusted
state's map size is 5. -/
theorem verifiedGet_rejects_treeSize_mismatch_witness :
    (VerifiedGet ⟨fun _ => .ok ⟨[9], none, ['7']⟩, fun b => .ok b⟩
      ⟨fun _ => [], fun _ _ => [], fun _ _ => false⟩ [1]
      ⟨⟨[], ⟨5, []⟩⟩, ⟨6, []⟩⟩).1 = .err "verification failed" :=
  verifiedGet_rejects_treeSize_mismatch _ _ [1] ⟨⟨[], ⟨5, []⟩⟩, ⟨6, []⟩⟩
    ⟨[9], 7, List.replicate 256 [], [1]⟩ rfl (by decide)

/-- Claim C7 (failing input): the audit-path side channel checks only the
upper bound `idx < 256`, so a well-formed token with a negative parsed index
is not ignored — the write `prv[idx] = bs` panics.  Indices `≥ 256` are
ignored and a duplicate in-range index overwrites the earlier bytes, as the
claim states. -/
theorem parseHeadersForProof_negative_index_panics :
    parseHeadersForProof (some ["-1/ab".toList]) =
        .panicked "runtime error: index out of range" ∧
      parseHeadersForProof (some ["300/ab".toList]) =
        .ok (List.replicate 256 []) ∧
      parseHeadersForProof (some ["5/ab,5/cd".toList]) =
        .ok ((List.replicate 256 []).set 5 [0xcd]) :=
  ⟨rfl, rfl, rfl⟩

/-- Claim C8 (counterexample): a token lacking the `index/hex` separator is
malformed metadata, yet `Get` does not fail — the token is silently skipped
and a proof is returned. -/
theorem get_succeeds_on_separatorless_token :
    Get ⟨fun _ => .ok ⟨[9], some ["abc".toList], ['5']⟩, fun b => .ok b⟩
      [1] 5 = .ok ⟨[9], 5, List.replicate 256 [], [1]⟩ :=
  rfl

/-- Claim C8 (amended): whenever audit-path parsing rejects the metadata
with a decode error (as it does for a non-numeric index or invalid hex
bytes), `Get` fails with that error — no proof is constructed, the entry
decoder never runs — and `VerifiedGet` surfaces it with an empty
verification trace, so `Verify` is never invoked; a token lacking the
`index/hex` separator, however, is skipped rather than rejected. -/
theorem get_parseFailure_aborts_before_verify
    (env : GetEnv) (hp : HashParams) (key : List Nat) (s : MapTreeState)
    (resp : HttpResponse) (e : String)
    (hreq : env.makeRequest s.TreeSize = .ok resp)
    (hparse : parseHeadersForProof resp.proofHeaders = .err e) :
    Get env key s.TreeSize = .err e ∧ VerifiedGet env hp key s = (.err e, []) := by
  have hg : Get env key s.TreeSize = .err e := by
    simp [Get, hreq, hparse]
  exact ⟨hg, by simp [VerifiedGet, hg]⟩

/-- Claim C8 witness: a token with a non-numeric index aborts the read with
a decode error and no verification event. -/
theorem get_parseFailure_aborts_before_verify_witness :
    VerifiedGet ⟨fun _ => .ok ⟨[9], some ["xy/12".toList], ['5']⟩,
        fun b => .ok b⟩
      ⟨fun _ => [], fun _ _ => [], fun _ _ => false⟩ [1]
      ⟨⟨[], ⟨5, []⟩⟩, ⟨6, []⟩⟩ =
      (.err "strconv.Atoi: invalid syntax", []) :=
  (get_parseFailure_aborts_before_verify _ _ [1] ⟨⟨[], ⟨5, []⟩⟩, ⟨6, []⟩⟩
    ⟨[9], some ["xy/12".toList], ['5']⟩ _ rfl rfl).2

/-- Claim C9: `BlockUntilSize` returns only a head that has reached the
target size, and the backoff follows the reset-on-progress /
double-on-stall rule: on observed sizes 5, 5, 7, 7, 7, 10 with target 10
the sleeps are 1, 2, 1, 2, 4 and the head of size 10 is returned. -/
theorem blockUntilSize_backoff :
    (∀ polls treeSize fuel lastHead tts i sleeps h ss,
        blockUntilSizeLoop polls treeSize fuel lastHead tts i sleeps =
          some (.ok h, ss) → h.TreeSize ≥ treeSize) ∧
      BlockUntilSize
        (fun i => .ok ⟨[], ⟨[5, 5, 7, 7, 7, 10].getD i 10, []⟩⟩) 10 10 =
        some (.ok ⟨[], ⟨10, []⟩⟩, [1, 2, 1, 2, 4]) := by
  constructor
  · intro polls treeSize fuel
    induction fuel with
    | zero =>
      intro lastHead tts i sleeps h ss hh
      cases hh
    | succ n ih =>
      intro lastHead tts i sleeps h ss hh
      unfold blockUntilSizeLoop at hh
      cases hp : polls i with
      | error e => simp [hp] at hh
      | ok lth =>
        simp only [hp] at hh
        split at hh
        · simp only [Option.some_inj, Prod.mk.injEq] at hh
          obtain ⟨hh1, _⟩ := hh
          cases hh1
          assumption
        · split at hh
          · exact ih _ _ _ _ _ _ hh
          · exact ih _ _ _ _ _ _ hh
  · rfl

/-- Claim C9 witness: the scenario run satisfies the threshold property. -/
theorem blockUntilSize_backoff_witness :
    (⟨[], ⟨10, []⟩⟩ : MapTreeHead).TreeSize ≥ 10 :=
  blockUntilSize_backoff.1
    (fun i => .ok ⟨[], ⟨[5, 5, 7, 7, 7, 10].getD i 10, []⟩⟩) 10 10
    (-1) 1 0 [] ⟨[], ⟨10, []⟩⟩ [1, 2, 1, 2, 4] blockUntilSize_backoff.2

/-- Claim C10: every proof returned successfully by `Get` carries an audit
path of exactly 256 entries, and when the `X-Verified-Proof` header is
entirely absent `Get` still succeeds (on an otherwise well-formed response)
with all 256 entries empty. -/
theorem get_auditPath_invariant :
    (∀ env key treeSize proof, Get env key treeSize = .ok proof →
        proof.AuditPath.length = 256) ∧
      (∀ (env : GetEnv) key treeSize resp rv v,
        env.makeRequest treeSize = .ok resp →
        resp.proofHeaders = none →
        env.createFromBytes resp.body = .ok rv →
        go_Atoi resp.verifiedTreeSize = .ok v →
        Get env key treeSize = .ok ⟨rv, v, List.replicate 256 [], key⟩) := by
  constructor
  · intro env key treeSize proof h
    unfold Get at h
    cases hmr : env.makeRequest treeSize with
    | error e => simp [hmr] at h
    | ok resp =>
      simp only [hmr] at h
      cases hph : parseHeadersForProof resp.proofHeaders with
      | panicked m => simp [hph] at h
      | err e => simp [hph] at h
      | ok prv =>
        simp only [hph] at h
        cases hcb : env.createFromBytes resp.body with
        | error e => simp [hcb] at h
        | ok rv =>
          simp only [hcb] at h
          cases hat : go_Atoi resp.verifiedTreeSize with
          | error e => simp [hat] at h
          | ok vts =>
            simp only [hat] at h
            cases h
            exact parseHeadersForProof_length resp.proofHeaders prv hph
  · intro env key treeSize resp rv v hreq hph hcb hat
    unfold Get
    simp only [hreq, hph, parseHeadersForProof, hcb, hat]

/-- Claim C10 witness: a response with no `X-Verified-Proof` header yields a
proof whose 256 audit-path entries are all empty. -/
theorem get_auditPath_invariant_witness :
    Get ⟨fun _ => .ok ⟨[9], none, ['5']⟩, fun b => .ok b⟩ [1] 0 =
      .ok ⟨[9], 5, List.replicate 256 [], [1]⟩ :=
  get_auditPath_invariant.2 ⟨fun _ => .ok ⟨[9], none, ['5']⟩, fun b => .ok b⟩
    [1] 0 ⟨[9], none, ['5']⟩ [9] 5 rfl rfl rfl rfl

end Continusec
